import Mathlib

/-!
Verification of the bunt-logger crate: a process-wide logging front end that
gates message construction behind a runtime-configurable severity threshold
and a mutual-exclusion discipline.

The development shallowly embeds `src/lib.rs`:
* `Level` and `LevelFilter` are the `log` crate's enumerations, with their
  numeric discriminants (`Level::Error = 1 .. Level::Trace = 5`,
  `LevelFilter::Off = 0 .. LevelFilter::Trace = 5`); the crate compares them
  as unsigned integers, which `Level.toUsize` / `LevelFilter.toUsize` mirror.
* `LogPrefs` is the preference struct `{ quiet, filter, writer }`; the
  fluent setters (`quiet`, `level`, `writer`, `stdout`, `stderr`) become
  state-passing functions (the Rust methods mutate through `&mut self` and
  return the same handle, which here is the updated state itself).
* The `try_log!` macro's control flow — lock, check `enabled`, and only then
  evaluate the caller's argument expressions and write — becomes `tryLog`,
  which takes the argument evaluation as an explicit state transformer so
  that (non-)evaluation of side effects is observable.
* Sinks are modelled by identity: a `World` carries, next to the preferences,
  a store mapping each writer value to the list of messages it has received.
* Lock poisoning and the `unwrap` panic in `with()` are modelled by an
  `Except Fatal` result; the mutual-exclusion behaviour of the global
  `Mutex` is modelled by a small interleaving semantics in the
  `Conc` namespace.
-/

namespace BuntLogger

/-- Severity levels of the `log` facade, re-exported by the crate.
Numeric discriminants run `Error = 1` to `Trace = 5`. -/
inductive Level where
  | Error
  | Warn
  | Info
  | Debug
  | Trace
deriving DecidableEq

/-- The numeric discriminant (`usize` value) of a `log::Level`. -/
def Level.toUsize : Level → Nat
  | .Error => 1
  | .Warn => 2
  | .Info => 3
  | .Debug => 4
  | .Trace => 5

/-- Filter values of the `log` facade; `Off` is below every level.
Numeric discriminants run `Off = 0` to `Trace = 5`. -/
inductive LevelFilter where
  | Off
  | Error
  | Warn
  | Info
  | Debug
  | Trace
deriving DecidableEq

/-- The numeric discriminant (`usize` value) of a `log::LevelFilter`. -/
def LevelFilter.toUsize : LevelFilter → Nat
  | .Off => 0
  | .Error => 1
  | .Warn => 2
  | .Info => 3
  | .Debug => 4
  | .Trace => 5

/-- The comparison `filter >= level` of the `log` crate: `LevelFilter` and
`Level` are compared by their numeric discriminants. -/
def LevelFilter.geLevel (f : LevelFilter) (l : Level) : Bool :=
  l.toUsize ≤ f.toUsize

/-- The `log` crate's `Level::to_level_filter`, mapping each level to the
equally named filter (never `Off`). -/
def Level.to_level_filter : Level → LevelFilter
  | .Error => .Error
  | .Warn => .Warn
  | .Info => .Info
  | .Debug => .Debug
  | .Trace => .Trace

/-- The spec's severity ordering: Trace is least severe, Error most severe.
This definition follows the SPEC's words (Glossary and §3), to be compared
against the code's `enabled`. -/
def Level.sevIdx : Level → Nat
  | .Trace => 0
  | .Debug => 1
  | .Info => 2
  | .Warn => 3
  | .Error => 4

/-- The spec-side relation `T <= L` under the severity ordering
(Trace least severe, Error most severe).  Spec-modelled comparison, not
taken from the code. -/
def sevLe (t l : Level) : Bool :=
  t.sevIdx ≤ l.sevIdx

/-- Color policies of `termcolor::ColorChoice`. -/
inductive ColorChoice where
  | Always
  | AlwaysAnsi
  | Never
  | Auto
deriving DecidableEq

/-- The sink handle stored in the preferences: either one of the two
standard streams produced by `StandardStream::stdout` / `stderr` with a
color choice, or an arbitrary boxed writer (identified by an id). -/
inductive Writer where
  | stdoutStream (color : ColorChoice)
  | stderrStream (color : ColorChoice)
  | custom (id : Nat)
deriving DecidableEq

/-- The preference struct `LogPrefs { quiet, filter, writer }`. -/
structure LogPrefs where
  quiet : Bool
  filter : LevelFilter
  writer : Writer
deriving DecidableEq

/-- Construction in `LogPrefs::new`: not quiet, filter `Info`, sink
`StandardStream::stdout(ColorChoice::Auto)`. -/
def LogPrefs.new : LogPrefs :=
  { quiet := false
    filter := .Info
    writer := .stdoutStream .Auto }

/-- Setter `LogPrefs::quiet` (named `setQuiet` here because the struct field
is already called `quiet`): sets the quiet flag, returns the handle. -/
def LogPrefs.setQuiet (p : LogPrefs) (quiet : Bool) : LogPrefs :=
  { p with quiet := quiet }

/-- Setter `LogPrefs::level`: sets the filter to `level.to_level_filter()`,
returns the handle. -/
def LogPrefs.level (p : LogPrefs) (level : Level) : LogPrefs :=
  { p with filter := level.to_level_filter }

/-- Setter `LogPrefs::writer` (named `setWriter` here because the struct
field is already called `writer`): replaces the sink, returns the handle. -/
def LogPrefs.setWriter (p : LogPrefs) (writer : Writer) : LogPrefs :=
  { p with writer := writer }

/-- Setter `LogPrefs::stdout`: installs `StandardStream::stdout(color)`. -/
def LogPrefs.stdout (p : LogPrefs) (color : ColorChoice) : LogPrefs :=
  p.setWriter (.stdoutStream color)

/-- Setter `LogPrefs::stderr`: installs `StandardStream::stderr(color)`. -/
def LogPrefs.stderr (p : LogPrefs) (color : ColorChoice) : LogPrefs :=
  p.setWriter (.stderrStream color)

/-- The filter check `LogPrefs::enabled`: `!self.quiet && self.filter >= level`. -/
def LogPrefs.enabled (p : LogPrefs) (level : Level) : Bool :=
  !p.quiet && p.filter.geLevel level

/-- Accessor `LogPrefs::get_writer`: borrows the current sink. -/
def LogPrefs.get_writer (p : LogPrefs) : Writer :=
  p.writer

/-- Contents received by each sink, keyed by writer identity. -/
def SinkStore : Type :=
  Writer → List String

/-- The observable state a log call touches: the preferences guarded by the
global mutex, together with what every sink has received so far. -/
structure World where
  prefs : LogPrefs
  store : SinkStore

/-- One formatted write to the currently installed sink (the body of
`try_log!`: `bunt::writeln!(writer, ...)` against `prefs.get_writer()`). -/
def writeMsg (w : World) (msg : String) : World :=
  { w with
    store := fun wr =>
      if wr = w.prefs.get_writer then w.store wr ++ [msg] else w.store wr }

/-- The `try_log!` macro's control flow: acquire the preferences, test
`enabled(level)`, and only if it holds evaluate the caller's argument
expressions (the state transformer `body`, whose effects on `σ` model side
effects inside argument expressions and whose `String` result is the
rendered message) and write the rendered message to the current sink. -/
def tryLog {σ : Type} (w : World) (level : Level) (body : σ → σ × String)
    (s : σ) : World × σ :=
  if w.prefs.enabled level then
    let r := body s
    (writeMsg w r.2, r.1)
  else
    (w, s)

/-- The `error!` macro: `try_log!(Error, writer => ...)`. -/
def errorCall {σ : Type} (w : World) (body : σ → σ × String) (s : σ) :
    World × σ :=
  tryLog w .Error body s

/-- The `warn!` macro: `try_log!(Warn, writer => ...)`. -/
def warnCall {σ : Type} (w : World) (body : σ → σ × String) (s : σ) :
    World × σ :=
  tryLog w .Warn body s

/-- The `info!` macro: `try_log!(Info, writer => ...)`. -/
def infoCall {σ : Type} (w : World) (body : σ → σ × String) (s : σ) :
    World × σ :=
  tryLog w .Info body s

/-- The `debug!` macro: `try_log!(Debug, writer => ...)`. -/
def debugCall {σ : Type} (w : World) (body : σ → σ × String) (s : σ) :
    World × σ :=
  tryLog w .Debug body s

/-- The `trace!` macro: `try_log!(Trace, writer => ...)`. -/
def traceCall {σ : Type} (w : World) (body : σ → σ × String) (s : σ) :
    World × σ :=
  tryLog w .Trace body s

/-- A log call whose argument evaluation is pure: checks `enabled` and, if
it holds, writes the message to the current sink. -/
def logCall (w : World) (level : Level) (msg : String) : World :=
  if w.prefs.enabled level then writeMsg w msg else w

/-- An I/O error reported by the rendering engine's write. -/
structure IoError where
  code : Nat
deriving DecidableEq

/-- The `try_log!` body with a fallible render-and-write step: the block is
`let _ = bunt::writeln!(writer, ...)`, so the write's result — the sink
store after the attempt, paired with an optional I/O error — has its error
component discarded by the `let _ =` binding, and the call falls through
normally.  The function is total and returns a `World`, never an error. -/
def tryLogE (w : World) (level : Level)
    (write : SinkStore → SinkStore × Option IoError) : World :=
  if w.prefs.enabled level then
    let r := write w.store
    { w with store := r.1 }
  else
    w

/-- Outcome of an access attempt when the fatal path is taken: the
`unwrap()` in `with()` aborts instead of returning a guard. -/
inductive Fatal where
  | panicked
deriving DecidableEq

/-- Poison state of `std::sync::Mutex::lock`: a prior holder terminated
abnormally while holding the lock. -/
inductive PoisonError where
  | poisoned
deriving DecidableEq

/-- The result of `LOGPREFS.lock()`: `Err(PoisonError)` when the mutex is
poisoned, otherwise a guard over the preferences. -/
def mutexLock (poisoned : Bool) (p : LogPrefs) : Except PoisonError LogPrefs :=
  if poisoned then .error .poisoned else .ok p

/-- The `.unwrap()` applied in `with()`: forwards a success and turns a
poison error into a fatal abort. -/
def unwrapFatal {α : Type} : Except PoisonError α → Except Fatal α
  | .ok a => .ok a
  | .error _ => .error .panicked

/-- The accessor `with()`: `LOGPREFS.lock().unwrap()` (named `withPrefs`
because `with` is reserved in Lean). -/
def withPrefs (poisoned : Bool) (p : LogPrefs) : Except Fatal LogPrefs :=
  unwrapFatal (mutexLock poisoned p)

/-- A configuration call made through `with()`: any chain of setters `f`
applied to the guarded preferences. -/
def configCall (poisoned : Bool) (p : LogPrefs) (f : LogPrefs → LogPrefs) :
    Except Fatal LogPrefs :=
  (withPrefs poisoned p).map f

/-- A log call made through `with()` (the first statement of `try_log!` is
`let mut prefs = $crate::with();`): fatal if the lock is poisoned,
otherwise the gated write. -/
def logCallVia (poisoned : Bool) (w : World) (level : Level) (msg : String) :
    Except Fatal World :=
  (withPrefs poisoned w.prefs).map (fun _ => logCall w level msg)

/-- The `Lazy<Mutex<LogPrefs>>` cell `LOGPREFS`: `none` before first access,
`some state` afterwards. -/
def LazyCell : Type :=
  Option LogPrefs

/-- Forcing the lazy cell on access: the first access runs the initializer
`LogPrefs::new()` and caches it; later accesses return the cached state. -/
def lazyForce : LazyCell → LogPrefs × LazyCell
  | none => (LogPrefs.new, some LogPrefs.new)
  | some p => (p, some p)

/-- Preference states reachable through the public API: the lazily created
initial state followed by any sequence of setter calls. -/
inductive Reachable : LogPrefs → Prop where
  | init : Reachable LogPrefs.new
  | quiet_step (p : LogPrefs) (b : Bool) :
      Reachable p → Reachable (p.setQuiet b)
  | level_step (p : LogPrefs) (l : Level) :
      Reachable p → Reachable (p.level l)
  | writer_step (p : LogPrefs) (w : Writer) :
      Reachable p → Reachable (p.setWriter w)
  | stdout_step (p : LogPrefs) (c : ColorChoice) :
      Reachable p → Reachable (p.stdout c)
  | stderr_step (p : LogPrefs) (c : ColorChoice) :
      Reachable p → Reachable (p.stderr c)

namespace Conc

/-!
Interleaving semantics for concurrent log calls.  Each of `n` threads
performs one enabled log call whose message is a list of bytes.  The
`try_log!` macro holds the `MutexGuard` returned by `with()` for the whole
block, so a thread's life is: acquire the mutex (only possible when free),
write its message's bytes one at a time while holding it, release.  The
scheduler may interleave threads arbitrarily between steps; bytes are
tagged with the writing thread so interleaving is observable.
-/

/-- Progress of one thread through its single log call: not yet started
(message pending), inside the critical section with `rest` still to write,
or finished. -/
inductive TState where
  | start (m : List Nat)
  | inCrit (rest : List Nat)
  | done
deriving DecidableEq

/-- Global state: who holds the mutex, each thread's progress, and the
byte-level output of the shared sink, each byte tagged with its writer. -/
structure CState (n : Nat) where
  lock : Option (Fin n)
  th : Fin n → TState
  out : List (Fin n × Nat)

/-- One scheduler step.  Acquiring requires the mutex to be free; writing a
byte and releasing are performed through the guard the thread obtained, so
they are only available to a thread inside its critical section. -/
inductive CStep {n : Nat} : CState n → CState n → Prop where
  | acquire (s : CState n) (i : Fin n) (m : List Nat) :
      s.lock = none → s.th i = .start m →
      CStep s ⟨some i, Function.update s.th i (.inCrit m), s.out⟩
  | writeByte (s : CState n) (i : Fin n) (b : Nat) (rest : List Nat) :
      s.th i = .inCrit (b :: rest) →
      CStep s ⟨s.lock, Function.update s.th i (.inCrit rest), s.out ++ [(i, b)]⟩
  | release (s : CState n) (i : Fin n) :
      s.th i = .inCrit [] →
      CStep s ⟨none, Function.update s.th i .done, s.out⟩

/-- Initial state: mutex free, every thread about to log its message,
empty output. -/
def initState (n : Nat) (msg : Fin n → List Nat) : CState n :=
  ⟨none, fun i => .start (msg i), []⟩

/-- States reachable by some interleaving of the `n` log calls. -/
inductive Exec (n : Nat) (msg : Fin n → List Nat) : CState n → Prop where
  | init : Exec n msg (initState n msg)
  | step {s s' : CState n} : Exec n msg s → CStep s s' → Exec n msg s'

/-- The contiguous output segment of thread `i` writing bytes `bs`. -/
def segOf {n : Nat} (i : Fin n) (bs : List Nat) : List (Fin n × Nat) :=
  bs.map (fun b => (i, b))

/-- Mutual-exclusion invariant: some list of threads have finished, their
complete messages standing contiguously in the output; either the mutex is
free and the output is exactly those segments, or exactly one thread is in
its critical section holding the mutex, with the written prefix of its
message at the end of the output. -/
def Inv {n : Nat} (msg : Fin n → List Nat) (s : CState n) : Prop :=
  ∃ finished : List (Fin n),
    finished.Nodup ∧
    (∀ i, s.th i = .done ↔ i ∈ finished) ∧
    (∀ i m, s.th i = .start m → m = msg i) ∧
    ((s.lock = none ∧ (∀ i rest, s.th i ≠ .inCrit rest) ∧
        s.out = (finished.map (fun i => segOf i (msg i))).flatten)
     ∨ (∃ i pre rest, s.lock = some i ∧ s.th i = .inCrit rest ∧
        msg i = pre ++ rest ∧ i ∉ finished ∧
        (∀ j r2, s.th j = .inCrit r2 → j = i) ∧
        s.out = (finished.map (fun j => segOf j (msg j))).flatten ++ segOf i pre))

/-- Message table of a concrete one-thread execution: thread 0 logs the
bytes `[7, 9]`. -/
def witMsg : Fin 1 → List Nat :=
  fun _ => [7, 9]

/-- Concrete execution, state 0: initial. -/
def wit0 : CState 1 :=
  initState 1 witMsg

/-- Concrete execution, state 1: thread 0 has acquired the mutex. -/
def wit1 : CState 1 :=
  ⟨some 0, Function.update wit0.th 0 (.inCrit [7, 9]), wit0.out⟩

/-- Concrete execution, state 2: thread 0 has written byte 7. -/
def wit2 : CState 1 :=
  ⟨wit1.lock, Function.update wit1.th 0 (.inCrit [9]), wit1.out ++ [(0, 7)]⟩

/-- Concrete execution, state 3: thread 0 has written byte 9. -/
def wit3 : CState 1 :=
  ⟨wit2.lock, Function.update wit2.th 0 (.inCrit []), wit2.out ++ [(0, 9)]⟩

/-- Concrete execution, state 4: thread 0 has released the mutex. -/
def wit4 : CState 1 :=
  ⟨none, Function.update wit3.th 0 .done, wit3.out⟩

/-- The invariant holds in the initial state. -/
theorem inv_init {n : Nat} (msg : Fin n → List Nat) : Inv msg (initState n msg) := by
  refine ⟨[], List.nodup_nil, ?_, ?_, Or.inl ⟨rfl, ?_, ?_⟩⟩
  · intro i
    simp [initState]
  · intro i m h
    simp [initState] at h
    exact h.symm
  · intro i rest h
    simp [initState] at h
  · simp [initState]

/-- The invariant is preserved by every scheduler step. -/
theorem inv_step {n : Nat} {msg : Fin n → List Nat} {s s' : CState n}
    (hinv : Inv msg s) (hstep : CStep s s') : Inv msg s' := by
  obtain ⟨fin, hnd, hdone, hstart, hrest⟩ := hinv
  cases hstep with
  | acquire i m hlock hth =>
      rcases hrest with ⟨_, hnoc, hout⟩ | ⟨j, pre, rest, hl, _, _, _, _, _⟩
      · refine ⟨fin, hnd, ?_, ?_,
          Or.inr ⟨i, [], m, rfl, Function.update_same i _ _, ?_, ?_, ?_, ?_⟩⟩
        · intro j
          by_cases hj : j = i
          · subst hj
            simp only [Function.update_same]
            constructor
            · intro hcon
              cases hcon
            · intro hmem
              have hd := (hdone j).mpr hmem
              rw [hth] at hd
              cases hd
          · simp only [Function.update_noteq hj]
            exact hdone j
        · intro j m' h
          by_cases hj : j = i
          · subst hj
            simp only [Function.update_same] at h
            cases h
          · simp only [Function.update_noteq hj] at h
            exact hstart j m' h
        · simpa using (hstart i m hth).symm
        · intro hmem
          have hd := (hdone i).mpr hmem
          rw [hth] at hd
          cases hd
        · intro j r2 h
          by_cases hj : j = i
          · exact hj
          · simp only [Function.update_noteq hj] at h
            exact absurd h (hnoc j r2)
        · simp [segOf, hout]
      · rw [hlock] at hl
        cases hl
  | writeByte i b rest hth =>
      rcases hrest with ⟨hl, hnoc, hout⟩ |
        ⟨j, pre, rest', hl, hcrit, hmsg, hjfin, huniq, hout⟩
      · exact absurd hth (hnoc i _)
      · have hij : i = j := huniq i _ hth
        subst hij
        rw [hth] at hcrit
        injection hcrit with hre
        subst hre
        refine ⟨fin, hnd, ?_, ?_,
          Or.inr ⟨i, pre ++ [b], rest, hl, Function.update_same i _ _, ?_, hjfin, ?_, ?_⟩⟩
        · intro j
          by_cases hj : j = i
          · subst hj
            simp only [Function.update_same]
            constructor
            · intro hcon
              cases hcon
            · intro hmem
              exact absurd hmem hjfin
          · simp only [Function.update_noteq hj]
            exact hdone j
        · intro j m' h
          by_cases hj : j = i
          · subst hj
            simp only [Function.update_same] at h
            cases h
          · simp only [Function.update_noteq hj] at h
            exact hstart j m' h
        · rw [hmsg, List.append_assoc]
          rfl
        · intro j r2 h
          by_cases hj : j = i
          · exact hj
          · simp only [Function.update_noteq hj] at h
            exact huniq j r2 h
        · simp [hout, segOf]
  | release i hth =>
      rcases hrest with ⟨hl, hnoc, hout⟩ |
        ⟨j, pre, rest', hl, hcrit, hmsg, hjfin, huniq, hout⟩
      · exact absurd hth (hnoc i _)
      · have hij : i = j := huniq i _ hth
        subst hij
        rw [hth] at hcrit
        injection hcrit with hre
        subst hre
        refine ⟨fin ++ [i], ?_, ?_, ?_, Or.inl ⟨rfl, ?_, ?_⟩⟩
        · simp [List.nodup_append, hnd, hjfin]
        · intro j
          by_cases hj : j = i
          · subst hj
            simp only [Function.update_same]
            simp
          · simp only [Function.update_noteq hj]
            rw [hdone j]
            simp [hj]
        · intro j m' h
          by_cases hj : j = i
          · subst hj
            simp only [Function.update_same] at h
            cases h
          · simp only [Function.update_noteq hj] at h
            exact hstart j m' h
        · intro j r2 h
          by_cases hj : j = i
          · subst hj
            simp only [Function.update_same] at h
            cases h
          · simp only [Function.update_noteq hj] at h
            exact absurd (huniq j r2 h) hj
        · have hmsg' : msg i = pre := by simpa using hmsg
          simp [hout, hmsg', List.map_append]

/-- Every reachable state satisfies the invariant. -/
theorem exec_inv {n : Nat} {msg : Fin n → List Nat} {s : CState n}
    (h : Exec n msg s) : Inv msg s := by
  induction h with
  | init => exact inv_init msg
  | step _ hstep ih => exact inv_step ih hstep

end Conc

/-- C1: for every preference state whose threshold was set from the
severity level `T` (the spec's `PreferenceState.threshold`), every quiet
flag and every level `L`, the code's `enabled(L)` — `!quiet && filter >=
level` under the `log` crate's numeric comparison — is true exactly when
quiet is false and `T <= L` under the facade's severity ordering (Trace
least severe, Error most severe). -/
theorem c1_enabled_iff_not_quiet_and_threshold_le
    (q : Bool) (wr : Writer) (T L : Level) :
    (LogPrefs.mk q T.to_level_filter wr).enabled L = (!q && sevLe T L) := by
  cases q <;> cases T <;> cases L <;> rfl

/-- C2: a log call through any of the five macros at a level for which
`enabled` is false evaluates none of its argument expressions — the side
effect state `s` is returned unchanged — and performs no write to any
sink (the world is returned unchanged). -/
theorem c2_disabled_call_evaluates_no_arguments {σ : Type} (w : World)
    (body : σ → σ × String) (s : σ) :
    (w.prefs.enabled .Error = false → errorCall w body s = (w, s)) ∧
    (w.prefs.enabled .Warn = false → warnCall w body s = (w, s)) ∧
    (w.prefs.enabled .Info = false → infoCall w body s = (w, s)) ∧
    (w.prefs.enabled .Debug = false → debugCall w body s = (w, s)) ∧
    (w.prefs.enabled .Trace = false → traceCall w body s = (w, s)) := by
  refine ⟨?_, ?_, ?_, ?_, ?_⟩ <;> intro h <;>
    simp [errorCall, warnCall, infoCall, debugCall, traceCall, tryLog, h]

/-- Witness for C2: in a quiet state with threshold `Info`, each of the
five macros leaves a counter-incrementing argument expression unevaluated
and the sinks untouched. -/
theorem c2_disabled_call_evaluates_no_arguments_witness :
    (errorCall ⟨⟨true, .Info, .stdoutStream .Auto⟩, fun _ => []⟩
        (fun (c : Nat) => (c + 1, "x")) 0 =
      (⟨⟨true, .Info, .stdoutStream .Auto⟩, fun _ => []⟩, 0)) ∧
    (warnCall ⟨⟨true, .Info, .stdoutStream .Auto⟩, fun _ => []⟩
        (fun (c : Nat) => (c + 1, "x")) 0 =
      (⟨⟨true, .Info, .stdoutStream .Auto⟩, fun _ => []⟩, 0)) ∧
    (infoCall ⟨⟨true, .Info, .stdoutStream .Auto⟩, fun _ => []⟩
        (fun (c : Nat) => (c + 1, "x")) 0 =
      (⟨⟨true, .Info, .stdoutStream .Auto⟩, fun _ => []⟩, 0)) ∧
    (debugCall ⟨⟨true, .Info, .stdoutStream .Auto⟩, fun _ => []⟩
        (fun (c : Nat) => (c + 1, "x")) 0 =
      (⟨⟨true, .Info, .stdoutStream .Auto⟩, fun _ => []⟩, 0)) ∧
    (traceCall ⟨⟨true, .Info, .stdoutStream .Auto⟩, fun _ => []⟩
        (fun (c : Nat) => (c + 1, "x")) 0 =
      (⟨⟨true, .Info, .stdoutStream .Auto⟩, fun _ => []⟩, 0)) :=
  have h := c2_disabled_call_evaluates_no_arguments
    ⟨⟨true, .Info, .stdoutStream .Auto⟩, fun _ => []⟩
    (fun (c : Nat) => (c + 1, "x")) 0
  ⟨h.1 rfl, h.2.1 rfl, h.2.2.1 rfl, h.2.2.2.1 rfl, h.2.2.2.2 rfl⟩

/-- C3: `quiet(true)` sets the quiet flag, and in any state where the flag
is still set, `enabled` is false at every level and a log call at any
level writes nothing to any sink and evaluates no arguments. -/
theorem c3_quiet_silences_everything {σ : Type} (p : LogPrefs) (w : World)
    (hq : w.prefs.quiet = true) (L : Level) (body : σ → σ × String) (s : σ) :
    (p.setQuiet true).quiet = true ∧
    w.prefs.enabled L = false ∧
    tryLog w L body s = (w, s) := by
  refine ⟨rfl, ?_, ?_⟩
  · simp [LogPrefs.enabled, hq]
  · simp [tryLog, LogPrefs.enabled, hq]

/-- Witness for C3: threshold `Trace`, quiet set — an `error!` call writes
nothing and evaluates nothing. -/
theorem c3_quiet_silences_everything_witness :
    (LogPrefs.new.setQuiet true).quiet = true ∧
    (World.mk ⟨true, .Trace, .stdoutStream .Auto⟩ (fun _ => [])).prefs.enabled
      .Error = false ∧
    tryLog (World.mk ⟨true, .Trace, .stdoutStream .Auto⟩ (fun _ => [])) .Error
        (fun (c : Nat) => (c + 1, "x")) 0 =
      (World.mk ⟨true, .Trace, .stdoutStream .Auto⟩ (fun _ => []), 0) :=
  c3_quiet_silences_everything LogPrefs.new _ rfl .Error _ 0

/-- C4: the first access to the lazy singleton runs the initializer and
caches its result, and that initial state has quiet = false, threshold =
`Info`, and sink = standard output with automatic color detection. -/
theorem c4_first_access_defaults :
    (lazyForce none).1 = LogPrefs.new ∧
    (lazyForce none).2 = some LogPrefs.new ∧
    LogPrefs.new.quiet = false ∧
    LogPrefs.new.filter = .Info ∧
    LogPrefs.new.writer = .stdoutStream .Auto :=
  ⟨rfl, rfl, rfl, rfl, rfl⟩

/-- C5: each setter mutates exactly its own field — `quiet` only the quiet
flag, `level` only the filter, `writer`/`stdout`/`stderr` only the sink —
leaving the other two fields unchanged, and returns the updated state
itself (the same handle), so chained calls accumulate on one state. -/
theorem c5_each_setter_mutates_one_field (p : LogPrefs) (b : Bool)
    (l : Level) (wr : Writer) (c c' : ColorChoice) :
    ((p.setQuiet b).quiet = b ∧ (p.setQuiet b).filter = p.filter ∧
      (p.setQuiet b).writer = p.writer) ∧
    ((p.level l).filter = l.to_level_filter ∧ (p.level l).quiet = p.quiet ∧
      (p.level l).writer = p.writer) ∧
    ((p.setWriter wr).writer = wr ∧ (p.setWriter wr).quiet = p.quiet ∧
      (p.setWriter wr).filter = p.filter) ∧
    ((p.stdout c).writer = .stdoutStream c ∧ (p.stdout c).quiet = p.quiet ∧
      (p.stdout c).filter = p.filter) ∧
    ((p.stderr c').writer = .stderrStream c' ∧ (p.stderr c').quiet = p.quiet ∧
      (p.stderr c').filter = p.filter) ∧
    (p.setQuiet b).level l = { p with quiet := b, filter := l.to_level_filter } :=
  ⟨⟨rfl, rfl, rfl⟩, ⟨rfl, rfl, rfl⟩, ⟨rfl, rfl, rfl⟩, ⟨rfl, rfl, rfl⟩,
    ⟨rfl, rfl, rfl⟩, rfl⟩

/-- C6: for every enabled log call, the I/O error (if any) reported by the
render-and-write step is discarded by the `let _ =` binding: the call
returns the post-write world normally — its result is exactly the state
component of the write attempt, independent of the error component, and no
error value escapes to the caller. -/
theorem c6_write_error_discarded (w : World) (L : Level)
    (write : SinkStore → SinkStore × Option IoError)
    (h : w.prefs.enabled L = true) :
    tryLogE w L write = { w with store := (write w.store).1 } := by
  simp [tryLogE, h]

/-- Witness for C6: an enabled `error!` call whose write fails with an I/O
error returns the world unchanged — and returns at all. -/
theorem c6_write_error_discarded_witness :
    tryLogE (World.mk ⟨false, .Info, .stdoutStream .Auto⟩ (fun _ => []))
        .Error (fun st => (st, some ⟨5⟩)) =
      World.mk ⟨false, .Info, .stdoutStream .Auto⟩ (fun _ => []) :=
  c6_write_error_discarded
    (World.mk ⟨false, .Info, .stdoutStream .Auto⟩ (fun _ => []))
    .Error (fun st => (st, some ⟨5⟩)) rfl

/-- C7: with the preference-store mutex poisoned, `with()` and therefore
every configuration call and every log call fails fatally instead of
returning access to the state. -/
theorem c7_poisoned_lock_is_fatal (poisoned : Bool) (p : LogPrefs)
    (f : LogPrefs → LogPrefs) (w : World) (L : Level) (msg : String)
    (h : poisoned = true) :
    withPrefs poisoned p = .error .panicked ∧
    configCall poisoned p f = .error .panicked ∧
    logCallVia poisoned w L msg = .error .panicked := by
  subst h
  exact ⟨rfl, rfl, rfl⟩

/-- Witness for C7: a poisoned lock makes `with()`, a `quiet(true)`
configuration call, and an `error!` call all abort. -/
theorem c7_poisoned_lock_is_fatal_witness :
    withPrefs true LogPrefs.new = .error .panicked ∧
    configCall true LogPrefs.new (fun p => p.setQuiet true) = .error .panicked ∧
    logCallVia true (World.mk LogPrefs.new (fun _ => [])) .Error "m" =
      .error .panicked :=
  c7_poisoned_lock_is_fatal true LogPrefs.new (fun p => p.setQuiet true)
    (World.mk LogPrefs.new (fun _ => [])) .Error "m" rfl

/-- C8: after a sink replacement, `setWriter` has installed the new sink as
the current writer, and an enabled log call in any state whose current
writer is the new sink appends its message to the new sink while the old
sink — any writer different from the new one — receives nothing. -/
theorem c8_replacement_redirects_writes (w : World) (p : LogPrefs)
    (wOld wNew : Writer) (L : Level) (msg : String)
    (hw : w.prefs.get_writer = wNew) (hne : wOld ≠ wNew)
    (hen : w.prefs.enabled L = true) :
    (p.setWriter wNew).get_writer = wNew ∧
    (logCall w L msg).store wNew = w.store wNew ++ [msg] ∧
    (logCall w L msg).store wOld = w.store wOld := by
  refine ⟨rfl, ?_, ?_⟩
  · simp [logCall, hen, writeMsg, hw]
  · simp [logCall, hen, writeMsg, hw, hne]

/-- Witness for C8: replace stdout by stderr, then an enabled `error!`
call lands on stderr and nothing reaches stdout. -/
theorem c8_replacement_redirects_writes_witness :
    (LogPrefs.new.setWriter (.stderrStream .Never)).get_writer =
      Writer.stderrStream .Never ∧
    (logCall (World.mk ⟨false, .Info, .stderrStream .Never⟩ (fun _ => []))
        .Error "m").store (.stderrStream .Never) = [] ++ ["m"] ∧
    (logCall (World.mk ⟨false, .Info, .stderrStream .Never⟩ (fun _ => []))
        .Error "m").store (.stdoutStream .Auto) = [] :=
  c8_replacement_redirects_writes
    (World.mk ⟨false, .Info, .stderrStream .Never⟩ (fun _ => []))
    LogPrefs.new (.stdoutStream .Auto) (.stderrStream .Never) .Error "m"
    rfl (by decide) rfl

/-- C9: in any interleaved execution of `n` threads each performing one
enabled log call under the global mutex, whenever the mutex is free the
sink's byte-level output is a concatenation of complete, contiguous
per-call segments — one segment per finished call, in some order — with no
byte of one message interleaved into another. -/
theorem c9_writes_never_interleaved {n : Nat} (msg : Fin n → List Nat)
    (s : Conc.CState n) (h : Conc.Exec n msg s) (hfree : s.lock = none) :
    ∃ order : List (Fin n), order.Nodup ∧
      (∀ i, i ∈ order ↔ s.th i = .done) ∧
      s.out = (order.map (fun i => Conc.segOf i (msg i))).flatten := by
  obtain ⟨fin, hnd, hdone, _, hrest⟩ := Conc.exec_inv h
  rcases hrest with ⟨_, _, hout⟩ | ⟨j, pre, rest, hl, _, _, _, _, _⟩
  · exact ⟨fin, hnd, fun i => (hdone i).symm, hout⟩
  · rw [hfree] at hl
    cases hl

/-- Witness for C9: the concrete four-step execution `wit0 … wit4` of one
thread logging two bytes ends with the mutex free and its message standing
as one contiguous segment. -/
theorem c9_writes_never_interleaved_witness :
    ∃ order : List (Fin 1), order.Nodup ∧
      (∀ i, i ∈ order ↔ Conc.wit4.th i = .done) ∧
      Conc.wit4.out =
        (order.map (fun i => Conc.segOf i (Conc.witMsg i))).flatten :=
  have h0 : Conc.Exec 1 Conc.witMsg Conc.wit0 := Conc.Exec.init
  have h1 : Conc.Exec 1 Conc.witMsg Conc.wit1 :=
    h0.step (Conc.CStep.acquire Conc.wit0 0 [7, 9] rfl rfl)
  have h2 : Conc.Exec 1 Conc.witMsg Conc.wit2 :=
    h1.step (Conc.CStep.writeByte Conc.wit1 0 7 [9] (by decide))
  have h3 : Conc.Exec 1 Conc.witMsg Conc.wit3 :=
    h2.step (Conc.CStep.writeByte Conc.wit2 0 9 [] (by decide))
  have h4 : Conc.Exec 1 Conc.witMsg Conc.wit4 :=
    h3.step (Conc.CStep.release Conc.wit3 0 (by decide))
  c9_writes_never_interleaved Conc.witMsg Conc.wit4 h4 rfl

/-- C10: every preference state reachable through the public API has a
filter different from `Off` — `level()` goes through `to_level_filter`,
which cannot yield `Off` — and consequently `enabled(Error)` equals
`!quiet`: Error-level messages are suppressed only by the quiet flag. -/
theorem c10_filter_never_off_error_gated_by_quiet (p : LogPrefs)
    (h : Reachable p) :
    p.filter ≠ .Off ∧ p.enabled .Error = !p.quiet := by
  have hoff : p.filter ≠ .Off := by
    induction h with
    | init => simp [LogPrefs.new]
    | quiet_step q b hq ih => simpa [LogPrefs.setQuiet] using ih
    | level_step q l hq ih => cases l <;> simp [LogPrefs.level, Level.to_level_filter]
    | writer_step q wr hq ih => simpa [LogPrefs.setWriter] using ih
    | stdout_step q c hq ih => simpa [LogPrefs.stdout, LogPrefs.setWriter] using ih
    | stderr_step q c hq ih => simpa [LogPrefs.stderr, LogPrefs.setWriter] using ih
  refine ⟨hoff, ?_⟩
  cases hfil : p.filter <;>
    simp_all [LogPrefs.enabled, LevelFilter.geLevel, LevelFilter.toUsize,
      Level.toUsize]

/-- Witness for C10: the initial state is reachable, its filter is not
`Off`, and its Error gate is exactly the negated quiet flag. -/
theorem c10_filter_never_off_error_gated_by_quiet_witness :
    LogPrefs.new.filter ≠ .Off ∧
    LogPrefs.new.enabled .Error = !LogPrefs.new.quiet :=
  c10_filter_never_off_error_gated_by_quiet LogPrefs.new Reachable.init

end BuntLogger
